import Mathlib

/-!
Verification of the `json-schema-deref-sync` resolution engine.

The source of truth is `src/lib/index.js` (the resolution engine, the
circular-reference detector and the history bookkeeping) together with
`src/lib/traverse.js` (the mutating depth-first walker).  Documents are
JSON-like trees; the JavaScript code mutates a deep copy of the input in
place, so the engine is embedded here as a pure function that threads the
current root document and an explicit resolution state.  The helper module
`utils.js` and the built-in file loader are not part of the provided
sources, so those few leaf functions are modelled from the specification;
each such definition is marked in its doc comment.

The JavaScript walker guards against revisiting shared object identities;
in this value-level embedding a fuel parameter bounds the descent instead,
and fuel exhaustion returns the tree unchanged.
-/

namespace JsonDeref

/-- The kinds of `Error` produced by `index.js`: the static
"Circular self reference" error, the static DAG-cycle error (with the
offending edge endpoints), the dynamic "circular references found" error
(with the recorded ref values), and the "Missing $ref" error. -/
inductive ErrKind where
  | selfRef : ErrKind
  | dagCycle : String → String → ErrKind
  | circularFound : List String → ErrKind
  | missingRef : String → ErrKind

/-- A JSON-like document node, as traversed by `traverse.js`: scalars,
arrays, string-keyed objects (insertion order preserved).  `errObj`
represents a JavaScript `Error` object flowing as a value (the engine can
cache and substitute an `Error` returned by a recursive `derefSchema`
call); it has no enumerable keys. -/
inductive Node where
  | null : Node
  | bool : Bool → Node
  | num : Int → Node
  | str : String → Node
  | arr : List Node → Node
  | obj : List (String × Node) → Node
  | errObj : ErrKind → Node

end JsonDeref

mutual

private def nodeDecEq : (a b : JsonDeref.Node) → Decidable (a = b)
  | .null, .null => isTrue rfl
  | .bool x, .bool y =>
      match decEq x y with
      | isTrue h => isTrue (by rw [h])
      | isFalse h => isFalse (by intro hc; cases hc; exact h rfl)
  | .num x, .num y =>
      match decEq x y with
      | isTrue h => isTrue (by rw [h])
      | isFalse h => isFalse (by intro hc; cases hc; exact h rfl)
  | .str x, .str y =>
      match decEq x y with
      | isTrue h => isTrue (by rw [h])
      | isFalse h => isFalse (by intro hc; cases hc; exact h rfl)
  | .arr xs, .arr ys =>
      match nodeListDecEq xs ys with
      | isTrue h => isTrue (by rw [h])
      | isFalse h => isFalse (by intro hc; cases hc; exact h rfl)
  | .obj xs, .obj ys =>
      match fieldListDecEq xs ys with
      | isTrue h => isTrue (by rw [h])
      | isFalse h => isFalse (by intro hc; cases hc; exact h rfl)
  | .errObj x, .errObj y =>
      match errKindDecEq x y with
      | isTrue h => isTrue (by rw [h])
      | isFalse h => isFalse (by intro hc; cases hc; exact h rfl)
  | .null, .bool _ => isFalse (by intro h; cases h)
  | .null, .num _ => isFalse (by intro h; cases h)
  | .null, .str _ => isFalse (by intro h; cases h)
  | .null, .arr _ => isFalse (by intro h; cases h)
  | .null, .obj _ => isFalse (by intro h; cases h)
  | .null, .errObj _ => isFalse (by intro h; cases h)
  | .bool _, .null => isFalse (by intro h; cases h)
  | .bool _, .num _ => isFalse (by intro h; cases h)
  | .bool _, .str _ => isFalse (by intro h; cases h)
  | .bool _, .arr _ => isFalse (by intro h; cases h)
  | .bool _, .obj _ => isFalse (by intro h; cases h)
  | .bool _, .errObj _ => isFalse (by intro h; cases h)
  | .num _, .null => isFalse (by intro h; cases h)
  | .num _, .bool _ => isFalse (by intro h; cases h)
  | .num _, .str _ => isFalse (by intro h; cases h)
  | .num _, .arr _ => isFalse (by intro h; cases h)
  | .num _, .obj _ => isFalse (by intro h; cases h)
  | .num _, .errObj _ => isFalse (by intro h; cases h)
  | .str _, .null => isFalse (by intro h; cases h)
  | .str _, .bool _ => isFalse (by intro h; cases h)
  | .str _, .num _ => isFalse (by intro h; cases h)
  | .str _, .arr _ => isFalse (by intro h; cases h)
  | .str _, .obj _ => isFalse (by intro h; cases h)
  | .str _, .errObj _ => isFalse (by intro h; cases h)
  | .arr _, .null => isFalse (by intro h; cases h)
  | .arr _, .bool _ => isFalse (by intro h; cases h)
  | .arr _, .num _ => isFalse (by intro h; cases h)
  | .arr _, .str _ => isFalse (by intro h; cases h)
  | .arr _, .obj _ => isFalse (by intro h; cases h)
  | .arr _, .errObj _ => isFalse (by intro h; cases h)
  | .obj _, .null => isFalse (by intro h; cases h)
  | .obj _, .bool _ => isFalse (by intro h; cases h)
  | .obj _, .num _ => isFalse (by intro h; cases h)
  | .obj _, .str _ => isFalse (by intro h; cases h)
  | .obj _, .arr _ => isFalse (by intro h; cases h)
  | .obj _, .errObj _ => isFalse (by intro h; cases h)
  | .errObj _, .null => isFalse (by intro h; cases h)
  | .errObj _, .bool _ => isFalse (by intro h; cases h)
  | .errObj _, .num _ => isFalse (by intro h; cases h)
  | .errObj _, .str _ => isFalse (by intro h; cases h)
  | .errObj _, .arr _ => isFalse (by intro h; cases h)
  | .errObj _, .obj _ => isFalse (by intro h; cases h)

private def errKindDecEq : (a b : JsonDeref.ErrKind) → Decidable (a = b)
  | .selfRef, .selfRef => isTrue rfl
  | .dagCycle a b, .dagCycle c d =>
      match decEq a c, decEq b d with
      | isTrue h1, isTrue h2 => isTrue (by rw [h1, h2])
      | isFalse h1, _ => isFalse (by intro hc; cases hc; exact h1 rfl)
      | _, isFalse h2 => isFalse (by intro hc; cases hc; exact h2 rfl)
  | .circularFound xs, .circularFound ys =>
      match decEq xs ys with
      | isTrue h => isTrue (by rw [h])
      | isFalse h => isFalse (by intro hc; cases hc; exact h rfl)
  | .missingRef x, .missingRef y =>
      match decEq x y with
      | isTrue h => isTrue (by rw [h])
      | isFalse h => isFalse (by intro hc; cases hc; exact h rfl)
  | .selfRef, .dagCycle _ _ => isFalse (by intro h; cases h)
  | .selfRef, .circularFound _ => isFalse (by intro h; cases h)
  | .selfRef, .missingRef _ => isFalse (by intro h; cases h)
  | .dagCycle _ _, .selfRef => isFalse (by intro h; cases h)
  | .dagCycle _ _, .circularFound _ => isFalse (by intro h; cases h)
  | .dagCycle _ _, .missingRef _ => isFalse (by intro h; cases h)
  | .circularFound _, .selfRef => isFalse (by intro h; cases h)
  | .circularFound _, .dagCycle _ _ => isFalse (by intro h; cases h)
  | .circularFound _, .missingRef _ => isFalse (by intro h; cases h)
  | .missingRef _, .selfRef => isFalse (by intro h; cases h)
  | .missingRef _, .dagCycle _ _ => isFalse (by intro h; cases h)
  | .missingRef _, .circularFound _ => isFalse (by intro h; cases h)

private def nodeListDecEq : (a b : List JsonDeref.Node) → Decidable (a = b)
  | [], [] => isTrue rfl
  | [], _ :: _ => isFalse (by intro h; cases h)
  | _ :: _, [] => isFalse (by intro h; cases h)
  | x :: xs, y :: ys =>
      match nodeDecEq x y, nodeListDecEq xs ys with
      | isTrue h1, isTrue h2 => isTrue (by rw [h1, h2])
      | isFalse h1, _ => isFalse (by intro hc; cases hc; exact h1 rfl)
      | _, isFalse h2 => isFalse (by intro hc; cases hc; exact h2 rfl)

private def fieldListDecEq :
    (a b : List (String × JsonDeref.Node)) → Decidable (a = b)
  | [], [] => isTrue rfl
  | [], _ :: _ => isFalse (by intro h; cases h)
  | _ :: _, [] => isFalse (by intro h; cases h)
  | (k, x) :: xs, (l, y) :: ys =>
      match decEq k l, nodeDecEq x y, fieldListDecEq xs ys with
      | isTrue h0, isTrue h1, isTrue h2 => isTrue (by rw [h0, h1, h2])
      | isFalse h0, _, _ => isFalse (by intro hc; cases hc; exact h0 rfl)
      | _, isFalse h1, _ => isFalse (by intro hc; cases hc; exact h1 rfl)
      | _, _, isFalse h2 => isFalse (by intro hc; cases hc; exact h2 rfl)

end

namespace JsonDeref

instance : DecidableEq Node := nodeDecEq
instance : DecidableEq ErrKind := errKindDecEq

/-- String-prefix test used when translating `String.prototype.startsWith`
from the source. -/
def strStarts (p s : String) : Bool := s.take p.length == p

/-- Split of a string at every occurrence of one separator character
(`String.prototype.split` with a one-character separator). -/
def splitOnC (c : Char) (s : String) : List String :=
  let rec go : List Char → List Char → List String
    | [], acc => [String.mk acc.reverse]
    | x :: xs, acc =>
        if x == c then String.mk acc.reverse :: go xs []
        else go xs (x :: acc)
  go s.data []

/-- Whether a string contains a character (`String.prototype.indexOf(c) >= 0`). -/
def strContainsC (c : Char) (s : String) : Bool :=
  s.data.any (fun x => x == c)

/-- `String.prototype.toLowerCase` on the history destinations. -/
def lowerStr (s : String) : String := String.mk (s.data.map Char.toLower)

/-- Decimal parse of an array index, as JavaScript property access on an
array coerces a numeric-string key. -/
def parseNatQ (s : String) : Option Nat :=
  if s.data ≠ [] ∧ s.data.all (fun c => c.isDigit) then
    some (s.data.foldl (fun n c => n * 10 + (c.toNat - '0'.toNat)) 0)
  else none

/-- Modelled from the spec: `utils.getRefFilePath` — "everything before an
optional `#` marks the location (file path, or empty for purely local)".
Takes the portion of the ref value before the first `#`. -/
def getRefFilePath (refVal : String) : String :=
  match splitOnC '#' refVal with
  | [] => refVal
  | p :: _ => p

/-- Modelled from the spec: `utils.isAbsolute` — whether a file path is
already absolute (POSIX style, leading slash). -/
def isAbsolutePath (p : String) : Bool := strStarts "/" p

/-- Modelled from the spec: normalisation performed by Node's
`path.resolve` when producing a canonical absolute path — `.` and empty
segments are dropped and `..` pops the previous segment. -/
def normalizeAbs (s : String) : String :=
  let segs := (splitOnC '/' s).foldl
    (fun acc seg =>
      if seg = "" ∨ seg = "." then acc
      else if seg = ".." then acc.dropLast
      else acc ++ [seg]) []
  "/" ++ String.intercalate "/" segs

/-- Modelled from the spec: Node's `path.resolve(cwd, p)` for an absolute
`cwd` — `p` itself when absolute, otherwise `p` joined onto `cwd`, in both
cases normalised. -/
def pathResolve (cwd p : String) : String :=
  if isAbsolutePath p then normalizeAbs p else normalizeAbs (cwd ++ "/" ++ p)

/-- Modelled from the spec: Node's `path.dirname` — the portion of a path
before its last separator, `"."` when there is no separator, `"/"` for a
file directly under the root. -/
def pathDirname (p : String) : String :=
  let parts := splitOnC '/' p
  if parts.length ≤ 1 then "."
  else
    let init := String.intercalate "/" parts.dropLast
    if init = "" then "/" else init

/-- Modelled from the spec: `utils.getRefType` — "local" when the ref value
begins with the pointer-fragment marker `#`, otherwise "file". -/
def getRefType (refVal : String) : String :=
  if strStarts "#" refVal then "local" else "file"

/-- Modelled from the spec: the pointer-path segments of a destination
string — everything after an optional `#`, split on `/`; a pointer of
exactly `#` (no trailing segments) denotes the whole document. -/
def pathSegsOf (s : String) : List String :=
  let s1 :=
    match splitOnC '#' s with
    | [] => s
    | [x] => x
    | _ :: rest => String.intercalate "#" rest
  let s2 := if strStarts "/" s1 then s1.drop 1 else s1
  if s2 = "" then [] else splitOnC '/' s2

/-- Key/index lookup of one pointer segment in a container, as performed by
the walker's `value[key]` and the path resolver: object fields by name,
array elements by decimal index. -/
def childOf (v : Node) (k : String) : Option Node :=
  match v with
  | .obj fs => (fs.find? (fun p => p.1 = k)).map (fun p => p.2)
  | .arr xs =>
      match parseNatQ k with
      | some i => if toString i = k then xs.get? i else none
      | none => none
  | _ => none

/-- Walks a node by successive pointer segments. -/
def getAtSegs : Node → List String → Option Node
  | v, [] => some v
  | v, k :: ks =>
      match childOf v k with
      | some c => getAtSegs c ks
      | none => none

/-- Modelled from the spec: `utils.getRefPathValue` — resolves a pointer
path against a root document, returning the found node or nothing. -/
def getRefPathValue (root : Node) (refPath : String) : Option Node :=
  getAtSegs root (pathSegsOf refPath)

/-- Replaces the value at a key path inside a document (the effect of the
walker context's `update`, which assigns `parent[key]`).  An invalid path
leaves the document unchanged. -/
def setAtSegs : Node → List String → Node → Node
  | _, [], nv => nv
  | .obj fs, k :: ks, nv =>
      .obj (fs.map (fun p => if p.1 = k then (p.1, setAtSegs p.2 ks nv) else p))
  | .arr xs, k :: ks, nv =>
      (match parseNatQ k with
       | some i =>
           (match xs.get? i with
            | some c => .arr (xs.set i (setAtSegs c ks nv))
            | none => .arr xs)
       | none => .arr xs)
  | v, _ :: _, _ => v

/-- Applies a function to the node at a key path inside a document,
leaving the document unchanged when the path does not resolve. -/
def modifyAtSegs (v : Node) (segs : List String) (f : Node → Node) : Node :=
  match getAtSegs v segs with
  | some x => setAtSegs v segs (f x)
  | none => v

/-- The keys the walker snapshots for a container: object field names in
insertion order, array indices as numbers (rendered in decimal for path
bookkeeping), nothing for scalars and `Error` objects (`Object.keys` of an
`Error` is empty). -/
def keysOf : Node → List String
  | .obj fs => fs.map (fun p => p.1)
  | .arr xs => (List.range xs.length).map toString
  | _ => []

/-- `traverse.js` descends only into values with `typeof value ===
'object'` (a walk into `null` is a no-op, so it is excluded here). -/
def isContainer : Node → Bool
  | .obj _ => true
  | .arr _ => true
  | .errObj _ => true
  | _ => false

/-- JavaScript truthiness of a document value, used by the engine's
`if (loaderValue)` and `if (refNewVal)` checks. -/
def truthy : Node → Bool
  | .null => false
  | .bool b => b
  | .num n => n != 0
  | .str s => s != ""
  | _ => true

/-- A node is a Reference Node when it is an object whose `$ref` field is a
string (`typeof node.$ref === 'string'`); returns the ref value. -/
def isRefNode : Node → Option String
  | .obj fs =>
      match (fs.find? (fun p => p.1 = "$ref")).map (fun p => p.2) with
      | some (Node.str s) => some s
      | _ => none
  | _ => none

/-- A local-reference edge collected by `checkLocalCircular`: the
slash-joined path of the Reference Node and the raw destination string. -/
structure LocalEdge where
  src : String
  dest : String
deriving DecidableEq

end JsonDeref

mutual

/-- Pre-order collection of local-reference edges, as `checkLocalCircular`
does with `traverse(schema).reduce`: for every node below the root whose
`$ref` is a string classified "local" with a truthy value, record the
node's slash-joined path and the destination. -/
def JsonDeref.collectGo : List String → JsonDeref.Node → List JsonDeref.LocalEdge
  | p, .obj fs => JsonDeref.collectFields p fs
  | p, .arr xs => JsonDeref.collectElems p 0 xs
  | _, _ => []

def JsonDeref.collectFields :
    List String → List (String × JsonDeref.Node) → List JsonDeref.LocalEdge
  | _, [] => []
  | p, (k, c) :: rest =>
      (match JsonDeref.isRefNode c with
       | some s =>
           if JsonDeref.getRefType s = "local" ∧ s ≠ "" then
             [⟨String.intercalate "/" (p ++ [k]), s⟩]
           else []
       | none => []) ++
      JsonDeref.collectGo (p ++ [k]) c ++ JsonDeref.collectFields p rest

def JsonDeref.collectElems :
    List String → Nat → List JsonDeref.Node → List JsonDeref.LocalEdge
  | _, _, [] => []
  | p, i, c :: rest =>
      (match JsonDeref.isRefNode c with
       | some s =>
           if JsonDeref.getRefType s = "local" ∧ s ≠ "" then
             [⟨String.intercalate "/" (p ++ [toString i]), s⟩]
           else []
       | none => []) ++
      JsonDeref.collectGo (p ++ [toString i]) c ++
      JsonDeref.collectElems p (i + 1) rest

end

namespace JsonDeref

/-- All local-reference edges of a document, in traversal order. -/
def collectLocals (schema : Node) : List LocalEdge := collectGo [] schema

/-- The destination pointer path as `checkLocalCircular` computes it:
`elem.to.substring(2)`, i.e. the raw destination minus its first two
characters. -/
def toPathOf (e : LocalEdge) : String := e.dest.drop 2

/-- The per-edge self-reference test of `checkLocalCircular`: destination
is exactly `#`; or `from` equals the destination path; or the (nonempty)
destination path is a string prefix of `from`; or the (nonempty) `from` is
a string prefix of the destination path. -/
def codeSelfCond (e : LocalEdge) : Bool :=
  let toPath := toPathOf e
  e.dest == "#" || e.src == toPath ||
    (toPath != "" && strStarts toPath e.src) ||
    (e.src != "" && strStarts e.src toPath)

/-- Bounded reachability in the dependency-edge list accumulated so far:
`reaches es fuel a b` holds when a directed path of length at most `fuel`
leads from `a` to `b`. -/
def reaches (es : List (String × String)) : Nat → String → String → Bool
  | 0, a, b => a == b
  | fuel + 1, a, b =>
      a == b || es.any (fun e => e.1 == a && reaches es fuel e.2 b)

/-- Whether adding the dependency edge `src → toPath` to the accumulated
graph closes a cycle, which is exactly when `dag-map`'s `add` throws: the
edge is a self-loop, or `toPath` already reaches `src`. -/
def closesCycle (acc : List (String × String)) (src toPath : String) : Bool :=
  src == toPath || reaches acc acc.length toPath src

/-- The dependency-insertion pass of `checkLocalCircular`: edges are added
in collection order and the first edge whose insertion closes a cycle is
reported. -/
def findCycle (acc : List (String × String)) :
    List LocalEdge → Option LocalEdge
  | [] => none
  | e :: rest =>
      if closesCycle acc e.src (toPathOf e) then some e
      else findCycle (acc ++ [(e.src, toPathOf e)]) rest

/-- `checkLocalCircular`: no error when the document has no local refs;
the self-reference error when some edge satisfies `codeSelfCond`;
otherwise the first cycle-closing edge of the dependency graph, if any. -/
def checkLocalCircularFn (schema : Node) : Option ErrKind :=
  let locals := collectLocals schema
  if locals.isEmpty then none
  else if locals.any codeSelfCond then some .selfRef
  else
    match findCycle [] locals with
    | some e => some (.dagCycle e.src e.dest)
    | none => none

end JsonDeref

mutual

/-- Modelled from the spec: lodash's deep merge of a source value over a
destination value — objects merge key-wise (destination key order kept,
new source keys appended), arrays merge index-wise (the longer tail is
kept), and otherwise the source value replaces the destination. -/
def JsonDeref.mergeVals : JsonDeref.Node → JsonDeref.Node → JsonDeref.Node
  | .obj d, .obj s =>
      .obj (JsonDeref.mergeFieldsGo d s ++
        s.filter (fun p => (d.find? (fun q => q.1 = p.1)).isNone))
  | .arr d, .arr s => .arr (JsonDeref.mergeArrGo d 0 s)
  | _, b => b

def JsonDeref.mergeFieldsGo :
    List (String × JsonDeref.Node) → List (String × JsonDeref.Node) →
    List (String × JsonDeref.Node)
  | [], _ => []
  | (k, v) :: rest, s =>
      (k, match (s.find? (fun p => p.1 = k)).map (fun p => p.2) with
          | some sv => JsonDeref.mergeVals v sv
          | none => v) :: JsonDeref.mergeFieldsGo rest s

def JsonDeref.mergeArrGo :
    List JsonDeref.Node → Nat → List JsonDeref.Node → List JsonDeref.Node
  | [], i, s => s.drop i
  | v :: rest, i, s =>
      (match s.get? i with
       | some sv => JsonDeref.mergeVals v sv
       | none => v) :: JsonDeref.mergeArrGo rest (i + 1) s

end

namespace JsonDeref

/-- Modelled from the spec: how `_.merge({}, newValue, refObj)` seeds its
destination — an object copies as itself, an array contributes its
elements under decimal index keys, and a primitive contributes nothing. -/
def asMergeBase : Node → Node
  | .obj fs => .obj fs
  | .arr xs => .obj (xs.enum.map (fun p => (toString p.1, p.2)))
  | _ => .obj []

/-- The merged substitution value computed at a Reference Node when
`mergeAdditionalProperties` is set: `_.merge({}, newValue, refObj)`. -/
def jsMergeTriple (newValue refObj : Node) : Node :=
  mergeVals (asMergeBase newValue) refObj

/-- The Reference Node's sibling properties: `{ ...node }` with `$ref`
deleted. -/
def refSiblings : Node → Node
  | .obj fs => .obj (fs.filter (fun p => p.1 ≠ "$ref"))
  | v => v

/-- `newValue.hasOwnProperty('$id')` for a document value. -/
def hasTopId : Node → Bool
  | .obj fs => fs.any (fun p => p.1 = "$id")
  | _ => false

/-- `delete newValue.$id`. -/
def removeTopId : Node → Node
  | .obj fs => .obj (fs.filter (fun p => p.1 ≠ "$id"))
  | v => v

/-- The recognised options of `deref`, with their `index.js` defaults. -/
structure Options where
  baseFolder : String := "/base"
  failOnMissing : Bool := false
  removeIds : Bool := false
  mergeAdditionalProperties : Bool := false
  removeCircular : Bool := false
deriving DecidableEq

/-- The external collaborators of one resolution run: the process working
directory, the content fingerprint used to seed the history namespace
(`md5(JSON.stringify(schema))`), and the injectable file loader, invoked
with the current base folder and the raw ref value. -/
structure Env where
  processCwd : String
  fingerprint : Node → String
  fileLoader : String → String → Option Node

/-- The per-call Resolution State of `index.js`, extended with the
per-call document cache (the module-level `cache`, reset at the start of
every `deref` call) and three instrumentation logs: one entry in
`loaderLog` per loader invocation (recording the canonical path the
invocation was keyed under); one entry in `cacheWrites` per store or
per modelled in-place change of a cache entry; and one entry in
`cacheStores` per execution of the guarded store
`cache[fullRefFilePath] = loaderValue` itself (the assignment at
`index.js:85`), which is the only statement that creates a cache
entry. -/
structure State where
  circular : Bool
  circularRefs : List String
  cwd : String
  missing : List String
  history : List String
  current : String
  error : Option ErrKind
  cache : List (String × Node)
  loaderLog : List String
  cacheWrites : List (String × Node)
  cacheStores : List (String × Node)

/-- Cache lookup by canonical path. -/
def cacheGet (st : State) (key : String) : Option Node :=
  (st.cache.find? (fun p => p.1 = key)).map (fun p => p.2)

/-- The history destination `addToHistory` computes: the raw file path for
file refs; nothing for the bare `#` local ref and the empty file path (the
falsy-`dest` cases); otherwise the current fingerprint joined to the ref
value. -/
def destOf (st : State) (refType refVal : String) : Option String :=
  if refType = "file" then
    let p := getRefFilePath refVal
    if p = "" then none else some p
  else if refVal = "#" then none
  else some (st.current ++ ":" ++ refVal)

/-- `addToHistory`: pushes the lowercased destination unless it is already
present, in which case it reports a live cycle.  The falsy-destination
cases do not touch the history; the bare `#` case reports a cycle and the
empty-file-path case reports success, as in the source. -/
def addToHistory (st : State) (refType refVal : String) : Bool × State :=
  if refType = "file" then
    let p := getRefFilePath refVal
    if p = "" then (true, st)
    else
      let d := lowerStr p
      if d ∈ st.history then (false, st)
      else (true, { st with history := st.history ++ [d] })
  else if refVal = "#" then (false, st)
  else
    let d := lowerStr (st.current ++ ":" ++ refVal)
    if d ∈ st.history then (false, st)
    else (true, { st with history := st.history ++ [d] })

/-- `setCurrent`: for file refs with a nonempty file path, the current
history namespace becomes that raw path. -/
def setCurrent (st : State) (refType refVal : String) : State :=
  if refType = "file" then
    let p := getRefFilePath refVal
    if p = "" then st else { st with current := p }
  else st

/-- `state.history.pop()`. -/
def popHistory (st : State) : State := { st with history := st.history.dropLast }

/-- Overwrites the cache entry at a key. -/
def cacheSet (cache : List (String × Node)) (key : String) (v : Node) :
    List (String × Node) :=
  cache.map (fun p => if p.1 = key then (key, v) else p)

/-- The in-place effect of `delete newValue.$id` when `newValue` aliases a
document stored in the cache (the whole entry, or the fragment subterm the
ref pointed at): the cached tree loses that `$id` as well.  Records the
change in `cacheWrites`; it is a mutation of an existing entry, not an
execution of the guarded store, so `cacheStores` is untouched. -/
def stripCacheAlias (st : State) : Option (String × String) → State
  | some (key, frag) =>
      (match cacheGet st key with
       | some entry =>
           let entry1 := modifyAtSegs entry (pathSegsOf frag) removeTopId
           { st with cache := cacheSet st.cache key entry1,
                     cacheWrites := st.cacheWrites ++ [(key, entry1)] }
       | none => st)
  | none => st

/-- The post-resolution steps shared by the top-level-ref branch and the
walker callback: strip `$id` under `removeIds` (mirroring the deletion
into an aliased cache entry), deep-merge the sibling properties under
`mergeAdditionalProperties`, and drop the ref value from the missing
list. -/
def applyResolved (opts : Options) (node nv : Node)
    (aliasInfo : Option (String × String)) (refVal : String) (st : State) :
    Node × State :=
  let (nv1, st1) :=
    if opts.removeIds && hasTopId nv then (removeTopId nv, stripCacheAlias st aliasInfo)
    else (nv, st)
  let nv2 :=
    if opts.mergeAdditionalProperties then jsMergeTriple nv1 (refSiblings node)
    else nv1
  (nv2, { st1 with missing := st1.missing.erase refVal })

/-- The fragment step at the end of `getRefSchema`: when the ref value
contains `#`, the pointer after it is looked up inside the loaded document
and only a truthy result is used; otherwise the whole document is the
result.  Threads through which cache entry (and fragment) the result
aliases. -/
def fragmentOf (refVal : String) (loaded : Node) (aliasKey : Option String) :
    Option Node × Option (String × String) :=
  if strContainsC '#' refVal then
    match (splitOnC '#' refVal).get? 1 with
    | some rp =>
        (match getRefPathValue loaded rp with
         | some x =>
             if truthy x then (some x, aliasKey.map (fun k => (k, rp)))
             else (none, none)
         | none => (none, none))
    | none => (none, none)
  else (some loaded, aliasKey.map (fun k => (k, "")))

end JsonDeref

namespace JsonDeref

/-- `getRefSchema`, parameterised over the recursive `derefSchema` call
(`derefFn`) used to resolve freshly loaded file content: local refs
resolve by pointer lookup against the given (current) root and never
invoke a loader; file refs consult the cache by canonical absolute path,
on a miss invoke the loader, recursively resolve the content with the
base directory switched to the file's own directory, and store the result
under the canonical path if still absent; a fragment suffix is then
looked up inside the loaded document.  Besides the optional result,
returns the cache key and fragment the result aliases, if any. -/
def getRefSchemaStep (env : Env) (derefFn : Node → State → Node × State)
    (root : Node) (refVal refType : String) (st : State) :
    Option Node × Option (String × String) × State :=
  if refType = "file" then
    let filePath := getRefFilePath refVal
    let full :=
      if isAbsolutePath filePath then filePath
      else pathResolve st.cwd filePath
    match cacheGet st full with
    | some v =>
        let fr := fragmentOf refVal v (some full)
        (fr.1, fr.2, st)
    | none =>
        let st1 := { st with loaderLog := st.loaderLog ++ [full] }
        match env.fileLoader st1.cwd refVal with
        | none => (none, none, st1)
        | some content =>
            if truthy content then
              let dirname0 := pathDirname filePath
              let dirname := if dirname0 = "." then "" else dirname0
              let st2 :=
                if dirname ≠ "" then { st1 with cwd := pathResolve st1.cwd dirname }
                else st1
              let rr := derefFn content st2
              let resolved := rr.1
              let st4 :=
                if dirname ≠ "" then { rr.2 with cwd := st1.cwd } else rr.2
              if truthy resolved then
                if (cacheGet st4 full).isNone then
                  let st5 :=
                    { st4 with
                        cache := st4.cache ++ [(full, resolved)],
                        cacheWrites := st4.cacheWrites ++ [(full, resolved)],
                        cacheStores := st4.cacheStores ++ [(full, resolved)] }
                  let fr := fragmentOf refVal resolved (some full)
                  (fr.1, fr.2, st5)
                else
                  let fr := fragmentOf refVal resolved none
                  (fr.1, fr.2, st4)
              else (none, none, st4)
            else (none, none, st1)
  else if refType = "local" then
    (getRefPathValue root refVal, none, st)
  else (none, none, st)

/-- The `derefSchema` walker callback for one Reference Node (lines
342-379): history push or live-cycle flagging, resolution, missing-ref
bookkeeping, `$id` stripping, sibling merge and substitution.  Returns the
updated root, the `stopped` flag and the updated state.

Substitution is by value (`setAtSegs`).  In the JavaScript source the
substituted subtree can be the very object a cache entry holds, so later
in-place updates inside that subtree also mutate the cache entry; this
aliasing channel is outside the pure embedding (only the `$id` deletion
is mirrored into the cache, by `stripCacheAlias`), so the model's cache
values can diverge from the source's after such a mutation, and no
theorem in this file asserts anything about the tree a cache entry holds
after it was stored. -/
def processRefStep (env : Env) (opts : Options)
    (derefFn : Node → State → Node × State) (root : Node)
    (path : List String) (node : Node) (refVal : String) (st : State) :
    Node × Bool × State :=
  let refType := getRefType refVal
  let ah := addToHistory st refType refVal
  let st1 := ah.2
  if ah.1 then
    let st2 := setCurrent st1 refType refVal
    let gr := getRefSchemaStep env derefFn root refVal refType st2
    let st4 := popHistory gr.2.2
    match gr.1 with
    | none =>
        let st5 :=
          if refVal ∈ st4.missing then st4
          else { st4 with missing := st4.missing ++ [refVal] }
        let st6 :=
          if opts.failOnMissing then
            { st5 with error := some (.missingRef refVal) }
          else st5
        (root, opts.failOnMissing, st6)
    | some nv =>
        let ap := applyResolved opts node nv gr.2.1 refVal st4
        (setAtSegs root path ap.1, false, ap.2)
  else
    let refs := st1.circularRefs ++ [refVal]
    (root, true,
     { st1 with circular := true, circularRefs := refs,
                error := some (.circularFound refs) })

/-- The `traverse.forEach` walk specialised to the `derefSchema` callback:
keys of the container at `path` inside the evolving root are processed in
snapshot order; a missing key is skipped; a Reference Node is substituted
via `processRefStep`; descent (`descendFn`) re-reads the current value
after the callback, so a replacement performed by the callback is what is
descended into.

The descent works on the model's value tree.  In the source, the subtree
descended into can alias a stored cache entry, so replacements made
during the descent mutate that entry in place; the value model cannot
express this, which is why the statements below about the cache count
only executions of the guarded store (`cacheStores`), never the tree a
stored entry holds afterwards. -/
def walkKeysStep (env : Env) (opts : Options)
    (derefFn : Node → State → Node × State)
    (descendFn : Node → List String → List String → State → Node × State) :
    Node → List String → List String → State → Node × State
  | root, _, [], st => (root, st)
  | root, path, k :: ks, st =>
      match getAtSegs root (path ++ [k]) with
      | none => walkKeysStep env opts derefFn descendFn root path ks st
      | some v =>
          match isRefNode v with
          | some refVal =>
              let pr := processRefStep env opts derefFn root (path ++ [k]) v refVal st
              let rs :=
                if pr.2.1 then (pr.1, pr.2.2)
                else
                  match getAtSegs pr.1 (path ++ [k]) with
                  | some nv =>
                      if isContainer nv then
                        descendFn pr.1 (path ++ [k]) (keysOf nv) pr.2.2
                      else (pr.1, pr.2.2)
                  | none => (pr.1, pr.2.2)
              walkKeysStep env opts derefFn descendFn rs.1 path ks rs.2
          | none =>
              let rs :=
                if isContainer v then descendFn root (path ++ [k]) (keysOf v) st
                else (root, st)
              walkKeysStep env opts derefFn descendFn rs.1 path ks rs.2

/-- `derefSchema`, main part: a truthy top-level `$ref` is resolved
directly and replaces the whole result (there is no parent container to
update); otherwise the walker substitutes nested refs. -/
def derefSchemaMainStep (env : Env) (opts : Options)
    (derefFn : Node → State → Node × State)
    (walkFn : Node → List String → List String → State → Node × State)
    (schema : Node) (st : State) : Node × State :=
  match isRefNode schema with
  | some refVal =>
      if refVal = "" then walkFn schema [] (keysOf schema) st
      else
        let refType := getRefType refVal
        let ah := addToHistory st refType refVal
        let st1 := ah.2
        if ah.1 then
          let st2 := setCurrent st1 refType refVal
          let gr := getRefSchemaStep env derefFn schema refVal refType st2
          let st4 := popHistory gr.2.2
          match gr.1 with
          | none =>
              let st5 :=
                if refVal ∈ st4.missing then st4
                else { st4 with missing := st4.missing ++ [refVal] }
              if opts.failOnMissing then
                (.errObj (.missingRef refVal),
                 { st5 with error := some (.missingRef refVal) })
              else (schema, st5)
          | some nv => applyResolved opts schema nv gr.2.1 refVal st4
        else
          let refs := st1.circularRefs ++ [refVal]
          let st2 := { st1 with circular := true, circularRefs := refs }
          if opts.removeCircular then (schema, st2)
          else (schema, { st2 with error := some (.circularFound refs) })
  | none => walkFn schema [] (keysOf schema) st

/-- `derefSchema`, entry (lines 266-288): the static local-circular check
runs first and its error is returned unless `removeCircular` tolerates
it; then a pending circular flag either aborts or, under
`removeCircular`, is reset; then a pending error aborts unless
`removeCircular` is set. -/
def derefSchemaStep (env : Env) (opts : Options)
    (derefFn : Node → State → Node × State)
    (walkFn : Node → List String → List String → State → Node × State)
    (schema : Node) (st : State) : Node × State :=
  let states := fun (st : State) =>
    if st.circular then
      if opts.removeCircular then
        derefSchemaMainStep env opts derefFn walkFn schema
          { st with circular := false, circularRefs := [], error := none }
      else (Node.errObj (.circularFound st.circularRefs), st)
    else
      match st.error with
      | some e =>
          if opts.removeCircular then
            derefSchemaMainStep env opts derefFn walkFn schema st
          else (Node.errObj e, st)
      | none => derefSchemaMainStep env opts derefFn walkFn schema st
  match checkLocalCircularFn schema with
  | some err =>
      if opts.removeCircular then states st
      else (.errObj err, st)
  | none => states st

/-- A pending request of the resolution engine: a (possibly recursive)
`derefSchema` call, or a walk of the keys of one container. -/
inductive Req where
  | deref (schema : Node) (st : State)
  | walk (root : Node) (path : List String) (keys : List String) (st : State)

/-- The fueled resolution engine, tying the step functions together.  The
JavaScript walker relies on object-identity tracking for termination;
here every nested `derefSchema` call and every descent into a (possibly
replaced) child costs one unit of fuel, and exhaustion returns the
document unchanged. -/
def engine (env : Env) (opts : Options) : Nat → Req → Node × State
  | 0, .deref schema st => (schema, st)
  | 0, .walk root _ _ st => (root, st)
  | f + 1, .deref schema st =>
      derefSchemaStep env opts
        (fun c s => engine env opts f (.deref c s))
        (fun r p ks s => engine env opts f (.walk r p ks s))
        schema st
  | f + 1, .walk root path keys st =>
      walkKeysStep env opts
        (fun c s => engine env opts f (.deref c s))
        (fun r p ks s => engine env opts f (.walk r p ks s))
        root path keys st

/-- `derefSchema` as called by `deref` and recursively by `getRefSchema`. -/
def derefSchemaAux (fuel : Nat) (env : Env) (opts : Options) (schema : Node)
    (st : State) : Node × State :=
  engine env opts fuel (.deref schema st)

end JsonDeref

namespace JsonDeref

/-- The fresh Resolution State `deref` builds: resolved working directory,
fingerprint-seeded history namespace, empty history/missing/cache. -/
def initState (env : Env) (opts : Options) (schema : Node) : State :=
  { circular := false, circularRefs := [],
    cwd :=
      if isAbsolutePath opts.baseFolder then opts.baseFolder
      else pathResolve env.processCwd opts.baseFolder,
    missing := [], history := [],
    current := env.fingerprint schema,
    error := none, cache := [], loaderLog := [], cacheWrites := [],
    cacheStores := [] }

/-- `deref`: runs `derefSchema` on a fresh state over (a deep copy of) the
input — deep-copying is the identity on immutable document values — and
returns either the error object produced, or the pending `state.error`,
or the resolved document.  The final state is kept for inspection. -/
def derefRun (fuel : Nat) (env : Env) (opts : Options) (schema : Node) :
    (ErrKind ⊕ Node) × State :=
  let (ret, st) := derefSchemaAux fuel env opts schema (initState env opts schema)
  match ret with
  | .errObj e => (Sum.inl e, st)
  | _ =>
      match st.error with
      | some e => (Sum.inl e, st)
      | none => (Sum.inr ret, st)

/-- The result component of `derefRun`. -/
def derefModel (fuel : Nat) (env : Env) (opts : Options) (schema : Node) :
    ErrKind ⊕ Node :=
  (derefRun fuel env opts schema).1

end JsonDeref

namespace JsonDeref

/-- The canonical absolute path `getRefSchema` keys the Document Cache
under: the ref value's file-path portion, absolutised against the current
base directory when relative. -/
def canonicalOf (cwd refVal : String) : String :=
  let fp := getRefFilePath refVal
  if isAbsolutePath fp then fp else pathResolve cwd fp

/-- Whether a node is a JavaScript `Error` object at its root. -/
def isErrRoot : Node → Bool
  | .errObj _ => true
  | _ => false

end JsonDeref

mutual

/-- A document containing no Reference Node anywhere: no object subterm
carries a string-valued `$ref` field. -/
def JsonDeref.noRefNodes : JsonDeref.Node → Bool
  | .obj fs => (JsonDeref.isRefNode (.obj fs)).isNone && JsonDeref.noRefFields fs
  | .arr xs => JsonDeref.noRefElems xs
  | _ => true

def JsonDeref.noRefFields : List (String × JsonDeref.Node) → Bool
  | [] => true
  | (_, c) :: rest => JsonDeref.noRefNodes c && JsonDeref.noRefFields rest

def JsonDeref.noRefElems : List JsonDeref.Node → Bool
  | [] => true
  | c :: rest => JsonDeref.noRefNodes c && JsonDeref.noRefElems rest

end

namespace JsonDeref

/-- The flagging condition of claim C6, following the spec's words: "the
destination is the document root `#`; `from` equals `to`; `from` is a
prefix of `to`; or `to` is a prefix of `from`", with `to` read as the
destination pointer path. -/
def claimedSelfCond (e : LocalEdge) : Bool :=
  e.dest == "#" || e.src == toPathOf e ||
    strStarts e.src (toPathOf e) || strStarts (toPathOf e) e.src

/-- A Reference Node literal. -/
def refn (s : String) : Node := .obj [("$ref", .str s)]

/-- An environment with no loadable files, fingerprinting every document
as `fp`. -/
def env0 : Env :=
  { processCwd := "/base", fingerprint := fun _ => "fp",
    fileLoader := fun _ _ => none }

/-- An environment serving one file under the canonical path
`/base/f.json`. -/
def envWith (content : Node) : Env :=
  { processCwd := "/base", fingerprint := fun _ => "fp",
    fileLoader := fun cwd rv =>
      if pathResolve cwd (getRefFilePath rv) = "/base/f.json" then some content
      else none }

end JsonDeref

namespace JsonDeref

/-- C10: dynamic cycle detection compares history keys case-insensitively —
every history destination is lowercased before comparison and insertion,
so after a reference with destination `d1` is pushed, a second reference
whose destination differs only in letter case is flagged as a live
circular reference. -/
theorem C10_history_lowercased (st : State) (t1 v1 t2 v2 d1 d2 : String)
    (h1 : destOf st t1 v1 = some d1)
    (h2 : destOf st t2 v2 = some d2)
    (hlc : lowerStr d2 = lowerStr d1)
    (hok : (addToHistory st t1 v1).1 = true) :
    (addToHistory st t1 v1).2.history = st.history ++ [lowerStr d1] ∧
    (addToHistory (addToHistory st t1 v1).2 t2 v2).1 = false := by
  simp only [destOf, addToHistory] at h1 h2 hok ⊢
  split_ifs at h1 h2 hok ⊢ <;> simp_all

end JsonDeref

namespace JsonDeref

/-- Witness for C10 at a concrete state: destinations `#/Foo` and `#/foo`
differ only in case and the second is flagged while the first is on the
history stack. -/
theorem C10_history_lowercased_witness :
    destOf (initState env0 {} .null) "local" "#/Foo" = some "fp:#/Foo" ∧
    destOf (initState env0 {} .null) "local" "#/foo" = some "fp:#/foo" ∧
    lowerStr "fp:#/foo" = lowerStr "fp:#/Foo" ∧
    (addToHistory (initState env0 {} .null) "local" "#/Foo").1 = true ∧
    ((addToHistory (initState env0 {} .null) "local" "#/Foo").2.history =
      (initState env0 {} .null).history ++ [lowerStr "fp:#/Foo"] ∧
     (addToHistory (addToHistory (initState env0 {} .null) "local" "#/Foo").2
        "local" "#/foo").1 = false) :=
  ⟨by decide, by decide, by decide, by decide,
   C10_history_lowercased (initState env0 {} .null) "local" "#/Foo" "local" "#/foo"
     "fp:#/Foo" "fp:#/foo" (by decide) (by decide) (by decide) (by decide)⟩

end JsonDeref

namespace JsonDeref

/-- A document whose only unresolvable reference sits inside the sibling
properties of a resolvable Reference Node. -/
def docNestedMissing : Node :=
  .obj [("a", .obj [("$ref", .str "#/b"), ("extra", refn "#/miss")]),
        ("b", .obj [("v", .num 1)])]

/-- Counterexample to C1: `docNestedMissing` contains the reference
`#/miss` whose destination does not resolve, yet with `failOnMissing`
set the call returns a document — the outer reference at `a` is
substituted before its `extra` child is visited, so the missing reference
is never processed and its node is absent from the output rather than
left unchanged. -/
theorem C1_counterexample :
    getRefPathValue docNestedMissing "#/miss" = none ∧
    derefModel 10 env0 { failOnMissing := true } docNestedMissing =
      Sum.inr (.obj [("a", .obj [("v", .num 1)]), ("b", .obj [("v", .num 1)])]) := by
  decide

/-- The mutual pair: `a`'s reference resolves to `b`'s node and vice
versa. -/
def pairDoc : Node := .obj [("a", refn "#/b"), ("b", refn "#/a")]

/-- Counterexample to C2: with `removeCircular` set, the mutual pair is
returned with both positions still holding Reference Nodes but not
"exactly as in the input" — processing `a` substitutes the current value
of `b` (the node `{$ref: "#/a"}`), so `a`'s destination is rewritten from
`#/b` to `#/a`. -/
theorem C2_counterexample :
    derefModel 10 env0 { removeCircular := true } pairDoc =
      Sum.inr (.obj [("a", refn "#/a"), ("b", refn "#/a")]) ∧
    Node.obj [("a", refn "#/a"), ("b", refn "#/a")] ≠ pairDoc := by
  decide

/-- A document whose local reference destinations form a chain
`a → b → c`. -/
def chainDoc : Node :=
  .obj [("a", refn "#/b"), ("b", refn "#/c"), ("c", .num 1)]

/-- Counterexample to C4: the document resolves to `{a: 1, b: 1, c: 1}`,
so the value substituted for the reference `#/a` at `c` is `1` — the value
at `a` in the current, already-substituted root — whereas the pointer `#/a`
in the original, un-substituted document locates the node
`{$ref: "#/b"}`. -/
theorem C4_counterexample :
    getRefPathValue (.obj [("a", refn "#/b"), ("b", .num 1), ("c", refn "#/a")])
      "#/a" = some (refn "#/b") ∧
    derefModel 10 env0 {}
      (.obj [("a", refn "#/b"), ("b", .num 1), ("c", refn "#/a")]) =
      Sum.inr (.obj [("a", .num 1), ("b", .num 1), ("c", .num 1)]) ∧
    Node.num 1 ≠ refn "#/b" := by
  decide

/-- Counterexample to C9: resolution of `chainDoc` succeeds but leaves the
resolvable reference `{$ref: "#/c"}` at `a` (the raw node of `b` was
substituted there before `b` itself was resolved), so a second resolution
changes the document again. -/
theorem C9_counterexample :
    derefModel 10 env0 {} chainDoc =
      Sum.inr (.obj [("a", refn "#/c"), ("b", .num 1), ("c", .num 1)]) ∧
    derefModel 10 env0 {} (.obj [("a", refn "#/c"), ("b", .num 1), ("c", .num 1)]) =
      Sum.inr (.obj [("a", .num 1), ("b", .num 1), ("c", .num 1)]) ∧
    Node.obj [("a", refn "#/c"), ("b", .num 1), ("c", .num 1)] ≠
      Node.obj [("a", .num 1), ("b", .num 1), ("c", .num 1)] := by
  decide

/-- A document with a local reference sitting at the empty object key. -/
def docEmptyKey : Node := .obj [("", refn "#/x"), ("x", .num 1)]

/-- Counterexample to C6: the edge from the empty key satisfies the
claim's condition ("from is a prefix of to" — the empty path is a prefix
of `x`), yet the pre-check does not flag it (the source guards the prefix
tests with nonemptiness) and the call resolves the document instead of
returning a self-reference error. -/
theorem C6_counterexample :
    claimedSelfCond ⟨"", "#/x"⟩ = true ∧
    (⟨"", "#/x"⟩ : LocalEdge) ∈ collectLocals docEmptyKey ∧
    derefModel 10 env0 {} docEmptyKey =
      Sum.inr (.obj [("", .num 1), ("x", .num 1)]) := by
  decide

/-- A file whose content references the same file again (under a different
relative spelling) through a fragment. -/
def fContentSelf : Node := .obj [("b", refn "./f.json#/x"), ("x", .num 1)]

/-- A document with one reference to `f.json`. -/
def docSelfFile : Node := .obj [("a", refn "f.json")]

/-- Counterexample to C5: `/base/f.json` is referenced by two distinct
Reference Nodes — `a` in the root document (as `f.json`) and `b` inside
the file's own content (as `./f.json#/x`) — and the loader is invoked
twice for that canonical path: the inner reference is processed while the
outer load is still being resolved, before the cache entry is stored. -/
theorem C5_counterexample :
    canonicalOf "/base" "f.json" = "/base/f.json" ∧
    canonicalOf "/base" "./f.json#/x" = "/base/f.json" ∧
    (derefRun 20 (envWith fContentSelf) {} docSelfFile).2.loaderLog =
      ["/base/f.json", "/base/f.json"] := by
  decide

/-- A file carrying a top-level `$id`. -/
def fContentId : Node := .obj [("$id", .str "i"), ("v", .num 1)]

/-- A document referencing `f.json` from two places. -/
def docTwoFileRefs : Node := .obj [("x", refn "f.json"), ("y", refn "f.json")]

/-- Counterexample to C8: with `removeIds` set, the cache entry for
`/base/f.json` is first stored as the fully resolved file content and
then changed in place — `delete newValue.$id` strips the `$id` from the
object the cache holds — so the entry is not write-once. -/
theorem C8_counterexample :
    (derefRun 20 (envWith fContentId) { removeIds := true } docTwoFileRefs).2.cacheWrites =
      [("/base/f.json", fContentId), ("/base/f.json", .obj [("v", .num 1)])] ∧
    fContentId ≠ Node.obj [("v", .num 1)] := by
  decide

end JsonDeref

namespace JsonDeref

/-- C4 (amended): a local reference is resolved by pointer lookup against
the root document as it currently stands at the time the reference is
processed — which may already contain substitutions — and resolving it
invokes no loader and leaves the resolution state (including the loader
log) untouched, for any recursive-resolution continuation. -/
theorem C4_local_uses_current_root (env : Env)
    (derefFn : Node → State → Node × State) (root : Node) (refVal : String)
    (st : State) :
    getRefSchemaStep env derefFn root refVal "local" st =
      (getRefPathValue root refVal, none, st) := by
  simp [getRefSchemaStep]

end JsonDeref

namespace JsonDeref

/-- C1 (amended): for every Reference Node the engine actually processes
whose destination fails to resolve, the node's slot in the root is left
unchanged (its `$ref` intact), the branch is stopped exactly when
`failOnMissing` is set, the ref value is recorded as missing, and the
error is set exactly when `failOnMissing` is set; and whenever the final
state of a run carries an error, the top-level call returns an Error
value rather than a document.  (References inside a subtree that is
replaced before they are visited are never processed — see the
counterexample.) -/
theorem C1_missing_behavior :
    (∀ (env : Env) (opts : Options) (derefFn : Node → State → Node × State)
       (root : Node) (path : List String) (node : Node) (refVal : String)
       (st st1 st2 : State) (ali : Option (String × String)),
       addToHistory st (getRefType refVal) refVal = (true, st1) →
       getRefSchemaStep env derefFn root refVal (getRefType refVal)
         (setCurrent st1 (getRefType refVal) refVal) = (none, ali, st2) →
       (processRefStep env opts derefFn root path node refVal st).1 = root ∧
       (processRefStep env opts derefFn root path node refVal st).2.1 =
         opts.failOnMissing ∧
       refVal ∈ (processRefStep env opts derefFn root path node refVal st).2.2.missing ∧
       (processRefStep env opts derefFn root path node refVal st).2.2.error =
         (if opts.failOnMissing then some (.missingRef refVal) else st2.error)) ∧
    (∀ (fuel : Nat) (env : Env) (opts : Options) (d : Node) (e : ErrKind),
       (derefRun fuel env opts d).2.error = some e →
       ∃ e2, derefModel fuel env opts d = Sum.inl e2) := by
  constructor
  · intro env opts derefFn root path node refVal st st1 st2 ali hok hres
    simp only [processRefStep, hok, hres]
    refine ⟨rfl, rfl, ?_, ?_⟩
    · by_cases hm : refVal ∈ st2.missing <;>
        by_cases hf : opts.failOnMissing <;> simp [hm, hf, popHistory]
    · by_cases hm : refVal ∈ st2.missing <;>
        by_cases hf : opts.failOnMissing <;> simp [hm, hf, popHistory]
  · intro fuel env opts d e herr
    unfold derefModel
    unfold derefRun at herr ⊢
    rcases hret : derefSchemaAux fuel env opts d (initState env opts d) with ⟨ret, stf⟩
    cases ret <;> cases hse : stf.error <;> simp_all

end JsonDeref

namespace JsonDeref

/-- Witness for C1 at a concrete input: the document `{a: {$ref: "#/miss"}}`
with `failOnMissing` set — the processed missing reference leaves the root
unchanged, and the recorded error makes the top-level call return an
Error. -/
theorem C1_missing_behavior_witness :
    (addToHistory (initState env0 { failOnMissing := true } (.obj [("a", refn "#/miss")]))
       (getRefType "#/miss") "#/miss").1 = true ∧
    ((processRefStep env0 { failOnMissing := true } (fun c s => (c, s))
        (.obj [("a", refn "#/miss")]) ["a"] (refn "#/miss") "#/miss"
        (initState env0 { failOnMissing := true } (.obj [("a", refn "#/miss")]))).1 =
      .obj [("a", refn "#/miss")]) ∧
    (derefRun 10 env0 { failOnMissing := true } (.obj [("a", refn "#/miss")])).2.error =
      some (.missingRef "#/miss") ∧
    (∃ e2, derefModel 10 env0 { failOnMissing := true }
      (.obj [("a", refn "#/miss")]) = Sum.inl e2) := by
  refine ⟨by decide, ?_, by decide, ?_⟩
  · exact (C1_missing_behavior.1 env0 { failOnMissing := true } (fun c s => (c, s))
      (.obj [("a", refn "#/miss")]) ["a"] (refn "#/miss") "#/miss"
      (initState env0 { failOnMissing := true } (.obj [("a", refn "#/miss")]))
      _ _ _ rfl rfl).1
  · exact C1_missing_behavior.2 10 env0 { failOnMissing := true }
      (.obj [("a", refn "#/miss")]) (.missingRef "#/miss") (by decide)

end JsonDeref

namespace JsonDeref

/-- C7: with `mergeAdditionalProperties` set (and `removeIds` unset, so
the resolved value enters the merge unmodified), the value substituted for
a successfully resolved Reference Node is
`_.merge({}, resolvedValue, siblings)` — the resolved value deep-merged
with the node's properties other than `$ref`, the sibling values taking
precedence; concretely, `{"$ref": "#/a", "title": "X"}` where `/a`
resolves to `{"title": "Y", "type": "string"}` yields
`{"title": "X", "type": "string"}`. -/
theorem C7_merge_siblings :
    (∀ (env : Env) (opts : Options) (derefFn : Node → State → Node × State)
       (root : Node) (path : List String) (node : Node) (refVal : String)
       (st st1 st2 : State) (nv : Node) (ali : Option (String × String)),
       opts.mergeAdditionalProperties = true →
       opts.removeIds = false →
       addToHistory st (getRefType refVal) refVal = (true, st1) →
       getRefSchemaStep env derefFn root refVal (getRefType refVal)
         (setCurrent st1 (getRefType refVal) refVal) = (some nv, ali, st2) →
       (processRefStep env opts derefFn root path node refVal st).1 =
         setAtSegs root path (jsMergeTriple nv (refSiblings node))) ∧
    jsMergeTriple (.obj [("title", .str "Y"), ("type", .str "string")])
        (.obj [("title", .str "X")]) =
      .obj [("title", .str "X"), ("type", .str "string")] ∧
    derefModel 10 env0 { mergeAdditionalProperties := true }
        (.obj [("x", .obj [("$ref", .str "#/a"), ("title", .str "X")]),
               ("a", .obj [("title", .str "Y"), ("type", .str "string")])]) =
      Sum.inr (.obj [("x", .obj [("title", .str "X"), ("type", .str "string")]),
                     ("a", .obj [("title", .str "Y"), ("type", .str "string")])]) := by
  refine ⟨?_, by decide, by decide⟩
  intro env opts derefFn root path node refVal st st1 st2 nv ali hm hr hok hres
  simp only [processRefStep, hok, hres, applyResolved, hm, hr]
  simp

/-- Witness for C7 at the claim's concrete document. -/
theorem C7_merge_siblings_witness :
    ((processRefStep env0 { mergeAdditionalProperties := true } (fun c s => (c, s))
        (.obj [("x", .obj [("$ref", .str "#/a"), ("title", .str "X")]),
               ("a", .obj [("title", .str "Y"), ("type", .str "string")])])
        ["x"] (.obj [("$ref", .str "#/a"), ("title", .str "X")]) "#/a"
        (initState env0 { mergeAdditionalProperties := true }
          (.obj [("x", .obj [("$ref", .str "#/a"), ("title", .str "X")]),
                 ("a", .obj [("title", .str "Y"), ("type", .str "string")])]))).1 =
      setAtSegs
        (.obj [("x", .obj [("$ref", .str "#/a"), ("title", .str "X")]),
               ("a", .obj [("title", .str "Y"), ("type", .str "string")])])
        ["x"]
        (jsMergeTriple (.obj [("title", .str "Y"), ("type", .str "string")])
          (refSiblings (.obj [("$ref", .str "#/a"), ("title", .str "X")])))) := by
  exact C7_merge_siblings.1 env0 { mergeAdditionalProperties := true }
    (fun c s => (c, s))
    (.obj [("x", .obj [("$ref", .str "#/a"), ("title", .str "X")]),
           ("a", .obj [("title", .str "Y"), ("type", .str "string")])])
    ["x"] (.obj [("$ref", .str "#/a"), ("title", .str "X")]) "#/a"
    (initState env0 { mergeAdditionalProperties := true }
      (.obj [("x", .obj [("$ref", .str "#/a"), ("title", .str "X")]),
             ("a", .obj [("title", .str "Y"), ("type", .str "string")])]))
    _ _ _ _ rfl rfl rfl rfl

end JsonDeref

namespace JsonDeref

/-- C5 (amended): once a file's canonical absolute path is in the Document
Cache, processing any file reference that canonicalises to that path is
served entirely from the cache — the loader is not invoked, no recursive
resolution happens, and the state (including the loader log) is unchanged;
and the cache key is the canonical absolute path, so differently spelled
relative references to the same file share one entry: the benign document
referencing `f.json` and `./f.json` triggers exactly one loader
invocation.  (When the file's own content references the file again while
it is first being resolved, the cache is not yet populated and the loader
runs a second time — see the counterexample.) -/
theorem C5_cache_behavior :
    (∀ (env : Env) (derefFn : Node → State → Node × State) (root : Node)
       (refVal : String) (st : State) (v : Node),
       cacheGet st (canonicalOf st.cwd refVal) = some v →
       getRefSchemaStep env derefFn root refVal "file" st =
         ((fragmentOf refVal v (some (canonicalOf st.cwd refVal))).1,
          (fragmentOf refVal v (some (canonicalOf st.cwd refVal))).2, st)) ∧
    ((derefRun 20 (envWith (.obj [("v", .num 2)])) {}
        (.obj [("a", refn "f.json"), ("b", refn "./f.json")])).2.loaderLog =
      ["/base/f.json"] ∧
     derefModel 20 (envWith (.obj [("v", .num 2)])) {}
        (.obj [("a", refn "f.json"), ("b", refn "./f.json")]) =
      Sum.inr (.obj [("a", .obj [("v", .num 2)]), ("b", .obj [("v", .num 2)])])) := by
  refine ⟨?_, by decide, by decide⟩
  intro env derefFn root refVal st v hc
  simp only [canonicalOf] at hc
  simp only [getRefSchemaStep, hc]
  simp [canonicalOf]

/-- Witness for C5 at a concrete state whose cache holds `/base/f.json`:
the file reference `f.json` is served from the cache with the state
untouched. -/
theorem C5_cache_behavior_witness :
    cacheGet
      { initState env0 {} .null with cache := [("/base/f.json", .obj [("v", .num 2)])] }
      (canonicalOf "/base" "f.json") = some (.obj [("v", .num 2)]) ∧
    getRefSchemaStep env0 (fun c s => (c, s)) .null "f.json" "file"
      { initState env0 {} .null with cache := [("/base/f.json", .obj [("v", .num 2)])] } =
      ((fragmentOf "f.json" (.obj [("v", .num 2)]) (some (canonicalOf "/base" "f.json"))).1,
       (fragmentOf "f.json" (.obj [("v", .num 2)]) (some (canonicalOf "/base" "f.json"))).2,
       { initState env0 {} .null with cache := [("/base/f.json", .obj [("v", .num 2)])] }) := by
  refine ⟨by decide, ?_⟩
  exact C5_cache_behavior.1 env0 (fun c s => (c, s)) .null "f.json"
    { initState env0 {} .null with cache := [("/base/f.json", .obj [("v", .num 2)])] }
    (.obj [("v", .num 2)]) (by decide)

end JsonDeref

namespace JsonDeref

/-- When the static local-circular check rejects the document and
`removeCircular` is not set, `deref` returns that error (any nonzero
fuel). -/
theorem staticErr_returns (fuel : Nat) (env : Env) (opts : Options) (d : Node)
    (err : ErrKind) (hchk : checkLocalCircularFn d = some err)
    (hrc : opts.removeCircular = false) :
    derefModel (fuel + 1) env opts d = Sum.inl err := by
  unfold derefModel derefRun derefSchemaAux
  simp [engine, derefSchemaStep, hchk, hrc]

/-- C6 (amended): the pre-check flags a self-reference — and `deref`
then returns the self-reference error when `removeCircular` is unset —
exactly when some collected local edge `{from, to}` satisfies the
source's conditions: `to` is exactly `#`; or `from` equals the
destination path (`to` minus its first two characters); or the
destination path is nonempty and is a string prefix of `from`; or `from`
is nonempty and is a string prefix of the destination path. -/
theorem C6_selfref_conditions :
    (∀ d : Node,
       checkLocalCircularFn d = some .selfRef ↔
         ∃ e ∈ collectLocals d, codeSelfCond e = true) ∧
    (∀ (fuel : Nat) (env : Env) (opts : Options) (d : Node),
       checkLocalCircularFn d = some .selfRef → opts.removeCircular = false →
       derefModel (fuel + 1) env opts d = Sum.inl .selfRef) := by
  constructor
  · intro d
    simp only [checkLocalCircularFn]
    by_cases he : (collectLocals d).isEmpty
    · have : collectLocals d = [] := by simpa [List.isEmpty_iff] using he
      simp [he, this]
    · by_cases ha : (collectLocals d).any codeSelfCond
      · rw [List.any_eq_true] at ha
        simp [he, List.any_eq_true, ha]
      · cases hf : findCycle [] (collectLocals d) <;>
          simp [he, ha, hf, List.any_eq_true] <;>
          simpa [List.any_eq_true] using ha
  · intro fuel env opts d hchk hrc
    exact staticErr_returns fuel env opts d .selfRef hchk hrc

/-- Witness for C6: a reference pointing into its own subtree is flagged
and the call returns the self-reference error. -/
theorem C6_selfref_conditions_witness :
    checkLocalCircularFn (.obj [("a", refn "#/a/b")]) = some .selfRef ∧
    derefModel 5 env0 {} (.obj [("a", refn "#/a/b")]) = Sum.inl .selfRef :=
  ⟨by decide,
   C6_selfref_conditions.2 4 env0 {} (.obj [("a", refn "#/a/b")])
     (by decide) rfl⟩

end JsonDeref

namespace JsonDeref

/-- Reachability is reflexive at any fuel. -/
theorem reaches_self (es : List (String × String)) (fuel : Nat) (b : String) :
    reaches es fuel b b = true := by
  cases fuel <;> simp [reaches]

/-- A present edge is reached in one step. -/
theorem mem_reaches (es : List (String × String)) (a b : String)
    (hm : (a, b) ∈ es) (fuel : Nat) : reaches es (fuel + 1) a b = true := by
  simp only [reaches, Bool.or_eq_true, List.any_eq_true]
  right
  exact ⟨(a, b), hm, by simp [reaches_self]⟩

/-- The invariant maintained by successful dependency insertion: no
self-loop edge and no mutually reversed pair. -/
def noRevPairs (acc : List (String × String)) : Prop :=
  (∀ p ∈ acc, p.1 ≠ p.2) ∧
    ∀ p ∈ acc, ∀ q ∈ acc, p.2 = q.1 → q.2 ≠ p.1

/-- An insertion that does not close a cycle preserves the invariant. -/
theorem noRevPairs_insert (acc : List (String × String)) (s t : String)
    (hcc : closesCycle acc s t = false) (hinv : noRevPairs acc) :
    noRevPairs (acc ++ [(s, t)]) := by
  have hst : s ≠ t := by
    intro h
    simp [closesCycle, h] at hcc
  have hts : (t, s) ∉ acc := by
    intro hmem
    have hlen : acc.length = (acc.length - 1) + 1 := by
      have : 0 < acc.length := List.length_pos.2 (by rintro rfl; cases hmem)
      omega
    have := mem_reaches acc t s hmem (acc.length - 1)
    rw [← hlen] at this
    simp [closesCycle, this] at hcc
  obtain ⟨hl, hr⟩ := hinv
  constructor
  · intro p hp
    rcases List.mem_append.1 hp with h | h
    · exact hl p h
    · simp at h; subst h; exact hst
  · intro p hp q hq hpq
    obtain ⟨pa, pb⟩ := p
    obtain ⟨qa, qb⟩ := q
    intro hqs
    rcases List.mem_append.1 hp with h1 | h1 <;>
      rcases List.mem_append.1 hq with h2 | h2
    · exact hr (pa, pb) h1 (qa, qb) h2 hpq hqs
    · simp only [List.mem_singleton, Prod.mk.injEq] at h2
      obtain ⟨rfl, rfl⟩ := h2
      simp only at hpq hqs
      subst hpq
      subst hqs
      exact hts h1
    · simp only [List.mem_singleton, Prod.mk.injEq] at h1
      obtain ⟨rfl, rfl⟩ := h1
      simp only at hpq hqs
      subst hpq
      subst hqs
      exact hts h2
    · simp only [List.mem_singleton, Prod.mk.injEq] at h1 h2
      obtain ⟨rfl, rfl⟩ := h1
      obtain ⟨h2a, h2b⟩ := h2
      simp only at hpq
      exact hst (hpq.trans h2a).symm

/-- If the dependency-insertion pass accepts every edge, the final edge
set satisfies the invariant. -/
theorem findCycle_none_noRev : ∀ (l : List LocalEdge) (acc : List (String × String)),
    noRevPairs acc → findCycle acc l = none →
    noRevPairs (acc ++ l.map (fun e => (e.src, toPathOf e))) := by
  intro l
  induction l with
  | nil => intro acc hinv _; simpa using hinv
  | cons e rest ih =>
      intro acc hinv hnone
      unfold findCycle at hnone
      by_cases hcc : closesCycle acc e.src (toPathOf e)
      · simp [hcc] at hnone
      · rw [if_neg (by simp [hcc])] at hnone
        have h2 := ih (acc ++ [(e.src, toPathOf e)])
          (noRevPairs_insert acc e.src (toPathOf e) (by simpa using hcc) hinv) hnone
        simpa [List.append_assoc] using h2

/-- C2 (amended): for every document containing two local-reference edges
that resolve to one another (the destination path of each is the other's
location), `deref` without `removeCircular` returns an Error — the static
detector rejects the document before any substitution; with
`removeCircular` set the mutual pair document resolves to a document in
which both positions still hold unresolved Reference Nodes, though the
first-processed node's destination is rewritten to the current value of
its partner (not left exactly as in the input — see the
counterexample). -/
theorem C2_mutual_pair :
    (∀ (d : Node) (e1 e2 : LocalEdge) (fuel : Nat) (env : Env) (opts : Options),
       opts.removeCircular = false →
       e1 ∈ collectLocals d → e2 ∈ collectLocals d →
       toPathOf e1 = e2.src → toPathOf e2 = e1.src →
       ∃ err, derefModel (fuel + 1) env opts d = Sum.inl err) ∧
    (derefModel 10 env0 { removeCircular := true } pairDoc =
       Sum.inr (.obj [("a", refn "#/a"), ("b", refn "#/a")]) ∧
     isRefNode (refn "#/a") = some "#/a") := by
  refine ⟨?_, by decide, by decide⟩
  intro d e1 e2 fuel env opts hrc he1 he2 h12 h21
  cases hchk : checkLocalCircularFn d with
  | some err => exact ⟨err, staticErr_returns fuel env opts d err hchk hrc⟩
  | none =>
      exfalso
      simp only [checkLocalCircularFn] at hchk
      have hne : ¬(collectLocals d).isEmpty = true := by
        intro h
        rw [List.isEmpty_iff] at h
        rw [h] at he1
        cases he1
      rw [if_neg hne] at hchk
      by_cases ha : (collectLocals d).any codeSelfCond
      · simp [ha] at hchk
      · rw [if_neg (by simp [ha])] at hchk
        cases hfc : findCycle [] (collectLocals d) with
        | some e => rw [hfc] at hchk; cases hchk
        | none =>
            have hnr := findCycle_none_noRev (collectLocals d) []
              (by constructor <;> simp) hfc
            simp only [List.nil_append] at hnr
            have hp1 : (e1.src, toPathOf e1) ∈
                (collectLocals d).map (fun e => (e.src, toPathOf e)) :=
              List.mem_map.2 ⟨e1, he1, rfl⟩
            have hp2 : (e2.src, toPathOf e2) ∈
                (collectLocals d).map (fun e => (e.src, toPathOf e)) :=
              List.mem_map.2 ⟨e2, he2, rfl⟩
            exact hnr.2 (e1.src, toPathOf e1) hp1 (e2.src, toPathOf e2) hp2 h12 h21

/-- Witness for C2 at the mutual pair document itself. -/
theorem C2_mutual_pair_witness :
    (⟨"a", "#/b"⟩ : LocalEdge) ∈ collectLocals pairDoc ∧
    (⟨"b", "#/a"⟩ : LocalEdge) ∈ collectLocals pairDoc ∧
    toPathOf (⟨"a", "#/b"⟩ : LocalEdge) = "b" ∧
    toPathOf (⟨"b", "#/a"⟩ : LocalEdge) = "a" ∧
    (∃ err, derefModel 10 env0 {} pairDoc = Sum.inl err) := by
  refine ⟨by decide, by decide, by decide, by decide, ?_⟩
  exact C2_mutual_pair.1 pairDoc ⟨"a", "#/b"⟩ ⟨"b", "#/a"⟩ 9 env0 {}
    rfl (by decide) (by decide) (by decide) (by decide)

end JsonDeref

namespace JsonDeref

/-- Every field of a ref-free field list is ref-free. -/
theorem noRefFields_mem : ∀ (fs : List (String × Node)),
    noRefFields fs = true → ∀ p ∈ fs, noRefNodes p.2 = true := by
  intro fs
  induction fs with
  | nil => intro _ p hp; cases hp
  | cons q rest ih =>
      intro h p hp
      rcases q with ⟨k, c⟩
      simp only [noRefFields, Bool.and_eq_true] at h
      rcases List.mem_cons.1 hp with hp | hp
      · rw [hp]; exact h.1
      · exact ih h.2 p hp

/-- Every element of a ref-free element list is ref-free. -/
theorem noRefElems_mem : ∀ (xs : List Node),
    noRefElems xs = true → ∀ c ∈ xs, noRefNodes c = true := by
  intro xs
  induction xs with
  | nil => intro _ c hc; cases hc
  | cons x rest ih =>
      intro h c hc
      simp only [noRefElems, Bool.and_eq_true] at h
      rcases List.mem_cons.1 hc with hc | hc
      · subst hc; exact h.1
      · exact ih h.2 c hc

/-- A ref-free node is not a Reference Node. -/
theorem noRef_isRefNode (v : Node) (h : noRefNodes v = true) :
    isRefNode v = none := by
  cases v <;> simp only [isRefNode]
  case obj fs =>
    simp only [noRefNodes, Bool.and_eq_true, Option.isNone_iff_eq_none] at h
    have := h.1
    simp only [isRefNode] at this
    exact this

/-- Children of a ref-free node are ref-free. -/
theorem noRef_child (v : Node) (k : String) (c : Node)
    (hv : noRefNodes v = true) (hc : childOf v k = some c) :
    noRefNodes c = true := by
  cases v <;> simp only [childOf] at hc <;> try exact Option.noConfusion hc
  case obj fs =>
    rcases hfind : fs.find? (fun p => p.1 = k) with _ | p
    · rw [hfind] at hc; exact Option.noConfusion hc
    · rw [hfind] at hc
      simp only [Option.map_some', Option.some.injEq] at hc
      subst hc
      simp only [noRefNodes, Bool.and_eq_true] at hv
      exact noRefFields_mem fs hv.2 p (List.mem_of_find?_eq_some hfind)
  case arr xs =>
    rcases hpn : parseNatQ k with _ | i
    · rw [hpn] at hc; exact Option.noConfusion hc
    · rw [hpn] at hc
      simp only at hc
      split_ifs at hc
      have hmem : c ∈ xs := List.get?_mem hc
      simp only [noRefNodes] at hv
      exact noRefElems_mem xs hv c hmem

/-- Every subterm reached by a key path inside a ref-free document is
ref-free. -/
theorem noRef_getAt : ∀ (segs : List String) (root v : Node),
    noRefNodes root = true → getAtSegs root segs = some v →
    noRefNodes v = true := by
  intro segs
  induction segs with
  | nil => intro root v h hg; cases hg; exact h
  | cons k ks ih =>
      intro root v h hg
      simp only [getAtSegs] at hg
      rcases hch : childOf root k with _ | c
      · rw [hch] at hg; cases hg
      · rw [hch] at hg
        exact ih c v (noRef_child root k c h hch) hg

end JsonDeref

mutual

/-- A ref-free document yields no local edges. -/
theorem JsonDeref.collectGo_nil : ∀ (p : List String) (v : JsonDeref.Node),
    JsonDeref.noRefNodes v = true → JsonDeref.collectGo p v = []
  | p, .obj fs, h => by
      simp only [JsonDeref.noRefNodes, Bool.and_eq_true] at h
      exact JsonDeref.collectFields_nil p fs h.2
  | p, .arr xs, h => by
      simp only [JsonDeref.noRefNodes] at h
      exact JsonDeref.collectElems_nil p 0 xs h
  | _, .null, _ => rfl
  | _, .bool _, _ => rfl
  | _, .num _, _ => rfl
  | _, .str _, _ => rfl
  | _, .errObj _, _ => rfl

theorem JsonDeref.collectFields_nil :
    ∀ (p : List String) (fs : List (String × JsonDeref.Node)),
      JsonDeref.noRefFields fs = true → JsonDeref.collectFields p fs = []
  | _, [], _ => rfl
  | p, (k, c) :: rest, h => by
      simp only [JsonDeref.noRefFields, Bool.and_eq_true] at h
      simp only [JsonDeref.collectFields, JsonDeref.noRef_isRefNode c h.1,
        JsonDeref.collectGo_nil (p ++ [k]) c h.1,
        JsonDeref.collectFields_nil p rest h.2, List.append_nil, List.nil_append]

theorem JsonDeref.collectElems_nil :
    ∀ (p : List String) (i : Nat) (xs : List JsonDeref.Node),
      JsonDeref.noRefElems xs = true → JsonDeref.collectElems p i xs = []
  | _, _, [], _ => rfl
  | p, i, c :: rest, h => by
      simp only [JsonDeref.noRefElems, Bool.and_eq_true] at h
      simp only [JsonDeref.collectElems, JsonDeref.noRef_isRefNode c h.1,
        JsonDeref.collectGo_nil (p ++ [toString i]) c h.1,
        JsonDeref.collectElems_nil p (i + 1) rest h.2, List.append_nil,
        List.nil_append]

end

namespace JsonDeref

/-- Over a ref-free root, the walker callback never fires, so the walk
leaves root and state untouched (given that descent does too). -/
theorem walkKeysStep_id (env : Env) (opts : Options)
    (derefFn : Node → State → Node × State)
    (descendFn : Node → List String → List String → State → Node × State)
    (hdesc : ∀ r p ks s, noRefNodes r = true → descendFn r p ks s = (r, s)) :
    ∀ (keys : List String) (root : Node) (path : List String) (st : State),
      noRefNodes root = true →
      walkKeysStep env opts derefFn descendFn root path keys st = (root, st) := by
  intro keys
  induction keys with
  | nil => intro root path st _; rfl
  | cons k ks ih =>
      intro root path st h
      simp only [walkKeysStep]
      rcases hget : getAtSegs root (path ++ [k]) with _ | v
      · exact ih root path st h
      · have hvr : noRefNodes v = true := noRef_getAt (path ++ [k]) root v h hget
        have hrn := noRef_isRefNode v hvr
        by_cases hcont : isContainer v <;>
          simp only [hrn, hcont, if_true, Bool.false_eq_true, if_false,
            hdesc root (path ++ [k]) (keysOf v) st h] <;>
          exact ih root path st h

/-- Over a ref-free root, any walk request is the identity. -/
theorem engine_walk_id (env : Env) (opts : Options) :
    ∀ (fuel : Nat) (root : Node) (path keys : List String) (st : State),
      noRefNodes root = true →
      engine env opts fuel (.walk root path keys st) = (root, st) := by
  intro fuel
  induction fuel with
  | zero => intro root path keys st _; rfl
  | succ f ih =>
      intro root path keys st h
      simp only [engine]
      exact walkKeysStep_id env opts _ _
        (fun r p ks s hr => ih r p ks s hr) keys root path st h

/-- Resolving a ref-free document from a clean state returns it
unchanged. -/
theorem engine_deref_noRef (env : Env) (opts : Options) (fuel : Nat)
    (r : Node) (st : State) (h : noRefNodes r = true)
    (hc : st.circular = false) (he : st.error = none) :
    engine env opts fuel (.deref r st) = (r, st) := by
  cases fuel with
  | zero => rfl
  | succ f =>
      simp only [engine, derefSchemaStep]
      have hchk : checkLocalCircularFn r = none := by
        simp [checkLocalCircularFn, collectLocals, collectGo_nil [] r h]
      rw [hchk]
      simp only [hc, Bool.false_eq_true, if_false, he]
      simp only [derefSchemaMainStep, noRef_isRefNode r h]
      exact engine_walk_id env opts f r [] (keysOf r) st h

/-- A document returned inside `Sum.inr` is never an `Error` object at its
root. -/
theorem derefModel_inr_not_err (fuel : Nat) (env : Env) (opts : Options)
    (d r : Node) (h : derefModel fuel env opts d = Sum.inr r) :
    isErrRoot r = false := by
  unfold derefModel derefRun at h
  rcases hret : derefSchemaAux fuel env opts d (initState env opts d) with ⟨ret, stf⟩
  rw [hret] at h
  cases ret <;> cases hse : stf.error <;> simp_all [isErrRoot] <;>
    (subst h; rfl)

/-- C9 (amended): resolution is the identity on documents containing no
Reference Node: if a successful result `r` has no `$ref` nodes, then
`deref r` returns `r` itself, and in particular
`resolve (resolve d) = resolve d` whenever the first resolution succeeds
with a ref-free result.  (A successful resolution can leave resolvable
Reference Nodes behind, on which a second pass differs — see the
counterexample.) -/
theorem C9_idempotent_on_reffree :
    (∀ (fuel : Nat) (env : Env) (opts : Options) (r : Node),
       noRefNodes r = true → isErrRoot r = false →
       derefModel fuel env opts r = Sum.inr r) ∧
    (∀ (fuel fuel2 : Nat) (env : Env) (opts : Options) (d r : Node),
       derefModel fuel env opts d = Sum.inr r → noRefNodes r = true →
       derefModel fuel2 env opts r = Sum.inr r) := by
  have hmain : ∀ (fuel : Nat) (env : Env) (opts : Options) (r : Node),
      noRefNodes r = true → isErrRoot r = false →
      derefModel fuel env opts r = Sum.inr r := by
    intro fuel env opts r h herr
    unfold derefModel derefRun derefSchemaAux
    rw [engine_deref_noRef env opts fuel r (initState env opts r) h rfl rfl]
    cases r
    case errObj => simp [isErrRoot] at herr
    all_goals simp [initState]
  exact ⟨hmain, fun fuel fuel2 env opts d r h1 h2 =>
    hmain fuel2 env opts r h2 (derefModel_inr_not_err fuel env opts d r h1)⟩

/-- Witness for C9 on a concrete ref-free document. -/
theorem C9_idempotent_on_reffree_witness :
    noRefNodes (.obj [("a", .num 1)]) = true ∧
    isErrRoot (.obj [("a", .num 1)]) = false ∧
    derefModel 5 env0 {} (.obj [("a", .num 1)]) =
      Sum.inr (.obj [("a", .num 1)]) :=
  ⟨by decide, by decide,
   C9_idempotent_on_reffree.1 5 env0 {} (.obj [("a", .num 1)])
     (by decide) (by decide)⟩

end JsonDeref

namespace JsonDeref

/-- The store-once invariant of the Document Cache: the guarded store has
executed at most once per canonical path, and the stored keys are exactly
the keys present in the cache. -/
def CacheInv (st : State) : Prop :=
  (st.cacheStores.map Prod.fst).Nodup ∧
    ∀ k : String, k ∈ st.cacheStores.map Prod.fst ↔ (cacheGet st k).isSome

/-- A state change that leaves cache and store log alone preserves the
invariant. -/
theorem cacheInv_same {st st' : State} (hc : st'.cache = st.cache)
    (hw : st'.cacheStores = st.cacheStores) (h : CacheInv st) : CacheInv st' := by
  unfold CacheInv cacheGet at *
  rw [hc, hw]
  exact h

/-- `cacheInv_same` with the known state first, so that elaboration pins
both states before discharging the field equations. -/
theorem cacheInv_of (st : State) (h : CacheInv st) (st' : State)
    (hc : st'.cache = st.cache) (hw : st'.cacheStores = st.cacheStores) :
    CacheInv st' := cacheInv_same hc hw h

/-- Storing a fresh key preserves the invariant. -/
theorem cacheInv_store {st : State} (full : String) (v : Node)
    (hnone : cacheGet st full = none) (h : CacheInv st) :
    CacheInv { st with cache := st.cache ++ [(full, v)],
                       cacheWrites := st.cacheWrites ++ [(full, v)],
                       cacheStores := st.cacheStores ++ [(full, v)] } := by
  obtain ⟨hnd, hiff⟩ := h
  have hfind : st.cache.find? (fun p => p.1 = full) = none := by
    unfold cacheGet at hnone
    rcases hf : st.cache.find? (fun p => p.1 = full) with _ | p
    · exact hf
    · rw [hf] at hnone; cases hnone
  constructor
  · simp only [List.map_append, List.map_cons, List.map_nil]
    rw [List.nodup_append]
    refine ⟨hnd, List.nodup_singleton full, ?_⟩
    intro a ha hb
    simp only [List.mem_singleton] at hb
    subst hb
    have := (hiff a).1 ha
    rw [hnone] at this
    cases this
  · intro k
    simp only [cacheGet, List.map_append, List.mem_append, List.map_cons,
      List.map_nil, List.mem_singleton, List.find?_append]
    by_cases hk : k = full
    · subst hk
      simp [hfind]
    · have h2 : List.find? (fun p => p.1 = k) [(full, v)] = none := by
        simp [List.find?, hk, Ne.symm hk]
      simp only [h2, hk, or_false]
      rw [Option.or_none]
      exact hiff k

/-- `addToHistory` never touches the cache. -/
theorem cacheInv_addToHistory (st : State) (t v : String) (hinv : CacheInv st) :
    CacheInv (addToHistory st t v).2 := by
  unfold addToHistory
  dsimp only
  repeat' split
  all_goals exact cacheInv_same rfl rfl hinv

/-- `setCurrent` never touches the cache. -/
theorem cacheInv_setCurrent (st : State) (t v : String) (hinv : CacheInv st) :
    CacheInv (setCurrent st t v) := by
  unfold setCurrent
  dsimp only
  repeat' split
  all_goals exact cacheInv_same rfl rfl hinv

/-- Overwriting the value stored at a key changes no key's presence. -/
theorem find?_cacheSet_isSome (c : List (String × Node)) (key : String)
    (v : Node) (k : String) :
    ((cacheSet c key v).find? (fun p => p.1 = k)).isSome =
      (c.find? (fun p => p.1 = k)).isSome := by
  rw [Bool.eq_iff_iff, List.find?_isSome, List.find?_isSome]
  unfold cacheSet
  constructor
  · rintro ⟨x, hx, hpx⟩
    obtain ⟨y, hy, rfl⟩ := List.mem_map.1 hx
    by_cases hyk : y.1 = key
    · rw [if_pos hyk] at hpx
      simp only [decide_eq_true_eq] at hpx ⊢
      exact ⟨y, hy, by rw [hyk]; exact hpx⟩
    · rw [if_neg hyk] at hpx
      exact ⟨y, hy, hpx⟩
  · rintro ⟨y, hy, hpy⟩
    refine ⟨if y.1 = key then (key, v) else y, List.mem_map.2 ⟨y, hy, rfl⟩, ?_⟩
    by_cases hyk : y.1 = key
    · rw [if_pos hyk]
      simp only [decide_eq_true_eq] at hpy ⊢
      rw [← hyk]
      exact hpy
    · rw [if_neg hyk]
      exact hpy

/-- The modelled in-place `$id` deletion overwrites an existing entry and
logs no store, so the store-once invariant survives it. -/
theorem cacheInv_stripCacheAlias (st : State) (ai : Option (String × String))
    (h : CacheInv st) : CacheInv (stripCacheAlias st ai) := by
  unfold stripCacheAlias
  rcases ai with _ | ⟨key, frag⟩
  · exact h
  · dsimp only
    split
    · rename_i entry heq
      obtain ⟨hnd, hiff⟩ := h
      refine ⟨hnd, fun k => ?_⟩
      dsimp only
      rw [hiff k]
      unfold cacheGet
      dsimp only
      rw [Option.isSome_map', Option.isSome_map',
        find?_cacheSet_isSome st.cache key _ k]
    · exact h

/-- The post-resolution bookkeeping never executes the guarded store: the
`$id` stripping only overwrites the entry in place, and the merge and
missing-list updates leave the cache alone. -/
theorem cacheInv_applyResolved (opts : Options) (node nv : Node)
    (ai : Option (String × String)) (refVal : String) (st : State)
    (hinv : CacheInv st) :
    CacheInv (applyResolved opts node nv ai refVal st).2 := by
  unfold applyResolved
  dsimp only
  split
  · exact cacheInv_of _ (cacheInv_stripCacheAlias st ai hinv) _ rfl rfl
  · exact cacheInv_of _ hinv _ rfl rfl

/-- `getRefSchema` preserves the cache write-once invariant whenever the
recursive resolution continuation does: the only cache store is guarded by
absence of the key and every other state change leaves the cache alone. -/
theorem cacheInv_getRefSchemaStep (env : Env)
    (derefFn : Node → State → Node × State)
    (hd : ∀ c s, CacheInv s → CacheInv (derefFn c s).2)
    (root : Node) (refVal refType : String) (st : State)
    (hinv : CacheInv st) :
    CacheInv (getRefSchemaStep env derefFn root refVal refType st).2.2 := by
  unfold getRefSchemaStep
  by_cases hft : refType = "file"
  case neg =>
    rw [if_neg hft]
    by_cases hlt : refType = "local"
    · rw [if_pos hlt]; exact hinv
    · rw [if_neg hlt]; exact hinv
  case pos =>
    rw [if_pos hft]
    dsimp only
    generalize (if isAbsolutePath (getRefFilePath refVal) = true
        then getRefFilePath refVal
        else pathResolve st.cwd (getRefFilePath refVal)) = full
    split
    · exact hinv
    · split
      · exact cacheInv_same rfl rfl hinv
      · split
        · generalize (if pathDirname (getRefFilePath refVal) = "." then ""
              else pathDirname (getRefFilePath refVal)) = dn
          by_cases hdn : dn ≠ ""
          · rw [if_pos hdn, if_pos hdn]
            repeat' split
            all_goals first
              | exact cacheInv_same rfl rfl
                  (hd _ _ (cacheInv_same rfl rfl hinv))
              | exact cacheInv_store _ _
                  (Option.isNone_iff_eq_none.1 (by assumption))
                  (cacheInv_same rfl rfl (hd _ _ (cacheInv_same rfl rfl hinv)))
          · rw [if_neg hdn, if_neg hdn]
            repeat' split
            all_goals first
              | exact hd _ _ (cacheInv_same rfl rfl hinv)
              | exact cacheInv_store _ _
                  (Option.isNone_iff_eq_none.1 (by assumption))
                  (hd _ _ (cacheInv_same rfl rfl hinv))
        · exact cacheInv_same rfl rfl hinv

attribute [irreducible] getRefSchemaStep addToHistory setCurrent applyResolved

/-- The walker callback preserves the store-once invariant when the
resolution continuation does: the only guarded store is inside
`getRefSchema`, and the `$id` stripping only overwrites in place. -/
theorem cacheInv_processRefStep (env : Env) (opts : Options)
    (derefFn : Node → State → Node × State)
    (hd : ∀ c s, CacheInv s → CacheInv (derefFn c s).2)
    (root : Node) (path : List String) (node : Node) (refVal : String)
    (st : State) (hinv : CacheInv st) :
    CacheInv (processRefStep env opts derefFn root path node refVal st).2.2 := by
  have h1 : CacheInv (addToHistory st (getRefType refVal) refVal).2 :=
    cacheInv_addToHistory st _ refVal hinv
  have h2 : CacheInv (getRefSchemaStep env derefFn root refVal
      (getRefType refVal)
      (setCurrent (addToHistory st (getRefType refVal) refVal).2
        (getRefType refVal) refVal)).2.2 :=
    cacheInv_getRefSchemaStep env derefFn hd root refVal (getRefType refVal) _
      (cacheInv_setCurrent _ _ _ h1)
  unfold processRefStep
  dsimp only
  split
  · split
    · repeat' split
      all_goals exact cacheInv_of _ h2 _ rfl rfl
    · exact cacheInv_applyResolved opts node _ _ refVal _
        (cacheInv_of _ h2 _ rfl rfl)
  · exact cacheInv_of _ h1 _ rfl rfl

attribute [irreducible] processRefStep

/-- The key walk preserves the store-once invariant when both
continuations do. -/
theorem cacheInv_walkKeysStep (env : Env) (opts : Options)
    (derefFn : Node → State → Node × State)
    (descendFn : Node → List String → List String → State → Node × State)
    (hd : ∀ c s, CacheInv s → CacheInv (derefFn c s).2)
    (hw : ∀ r p ks s, CacheInv s → CacheInv (descendFn r p ks s).2) :
    ∀ (keys : List String) (root : Node) (path : List String) (st : State),
      CacheInv st →
      CacheInv (walkKeysStep env opts derefFn descendFn root path keys st).2 := by
  intro keys
  induction keys with
  | nil =>
      intro root path st hinv
      simpa [walkKeysStep] using hinv
  | cons k ks ih =>
      intro root path st hinv
      unfold walkKeysStep
      dsimp only
      split
      · exact ih _ _ _ hinv
      · split
        · repeat' split
          all_goals first
            | exact ih _ _ _
                (hw _ _ _ _
                  (cacheInv_processRefStep env opts derefFn hd root
                    (path ++ [k]) _ _ st hinv))
            | exact ih _ _ _
                (cacheInv_processRefStep env opts derefFn hd root
                  (path ++ [k]) _ _ st hinv)
        · repeat' split
          all_goals first
            | exact ih _ _ _ (hw _ _ _ _ hinv)
            | exact ih _ _ _ hinv

/-- The main `derefSchema` step preserves the store-once invariant when
both continuations do. -/
theorem cacheInv_derefSchemaMainStep (env : Env) (opts : Options)
    (derefFn : Node → State → Node × State)
    (walkFn : Node → List String → List String → State → Node × State)
    (hd : ∀ c s, CacheInv s → CacheInv (derefFn c s).2)
    (hw : ∀ r p ks s, CacheInv s → CacheInv (walkFn r p ks s).2)
    (schema : Node) (st : State)
    (hinv : CacheInv st) :
    CacheInv (derefSchemaMainStep env opts derefFn walkFn schema st).2 := by
  unfold derefSchemaMainStep
  dsimp only
  split
  · split
    · exact hw _ _ _ _ hinv
    · split
      · split
        · repeat' split
          all_goals exact (cacheInv_of _
            (cacheInv_getRefSchemaStep env derefFn hd schema _ _ _
              (cacheInv_setCurrent _ _ _ (cacheInv_addToHistory st _ _ hinv)))
            _ rfl rfl)
        · exact (cacheInv_applyResolved opts schema _ _ _ _
            (cacheInv_of _
              (cacheInv_getRefSchemaStep env derefFn hd schema _ _ _
                (cacheInv_setCurrent _ _ _ (cacheInv_addToHistory st _ _ hinv)))
              _ rfl rfl))
      · split
        · exact cacheInv_of _ (cacheInv_addToHistory st _ _ hinv) _ rfl rfl
        · exact cacheInv_of _ (cacheInv_addToHistory st _ _ hinv) _ rfl rfl
  · exact hw _ _ _ _ hinv

attribute [irreducible] walkKeysStep derefSchemaMainStep

/-- The `derefSchema` entry preserves the store-once invariant when both
continuations do. -/
theorem cacheInv_derefSchemaStep (env : Env) (opts : Options)
    (derefFn : Node → State → Node × State)
    (walkFn : Node → List String → List String → State → Node × State)
    (hd : ∀ c s, CacheInv s → CacheInv (derefFn c s).2)
    (hw : ∀ r p ks s, CacheInv s → CacheInv (walkFn r p ks s).2)
    (schema : Node) (st : State)
    (hinv : CacheInv st) :
    CacheInv (derefSchemaStep env opts derefFn walkFn schema st).2 := by
  unfold derefSchemaStep
  dsimp only
  repeat' split
  all_goals first
    | exact hinv
    | exact cacheInv_of _ hinv _ rfl rfl
    | exact cacheInv_derefSchemaMainStep env opts derefFn walkFn hd hw
        schema _ (cacheInv_of _ hinv _ rfl rfl)

attribute [irreducible] derefSchemaStep

/-- The state a pending engine request starts from. -/
def reqState : Req → State
  | .deref _ st => st
  | .walk _ _ _ st => st

/-- The fueled engine preserves the store-once invariant from any
starting state, for any fuel, under every option combination. -/
theorem cacheInv_engine (env : Env) (opts : Options) :
    ∀ (fuel : Nat) (rq : Req),
      CacheInv (reqState rq) → CacheInv (engine env opts fuel rq).2 := by
  intro fuel
  induction fuel with
  | zero =>
      intro rq h
      cases rq <;> exact h
  | succ f ih =>
      intro rq h
      cases rq with
      | deref schema st =>
          exact cacheInv_derefSchemaStep env opts _ _
            (fun c s hs => ih (.deref c s) hs)
            (fun r p ks s hs => ih (.walk r p ks s) hs) schema st h
      | walk root path keys st =>
          exact cacheInv_walkKeysStep env opts _ _
            (fun c s hs => ih (.deref c s) hs)
            (fun r p ks s hs => ih (.walk r p ks s) hs) keys root path st h

/-- C8 (amended): Document Cache entries are created lazily on first
reference to a given external document: the guarded store
`cache[fullRefFilePath] = loaderValue` executes at most once per
canonical absolute path within one top-level deref call, under every
combination of options — for every fuel bound, environment, options and
document, the log of guarded-store executions has pairwise-distinct
keys.  The stored entry's tree, however, is not immutable after storage:
the entry aliases the working document, so later in-place changes reach
it — `removeIds` deletes `$id` inside the cached tree (the
counterexample exhibits this channel in the model via `cacheWrites`),
and in the source a reference left unresolved inside the stored content
is later resolved in place through the substituted alias — so the
original claim that a later reference served from the cache sees the
entry's tree unchanged is false, and this theorem asserts nothing about
an entry's value after its store. -/
theorem C8_cache_write_once (fuel : Nat) (env : Env) (opts : Options)
    (d : Node) :
    ((derefRun fuel env opts d).2.cacheStores.map Prod.fst).Nodup := by
  have hinit : CacheInv (initState env opts d) := by
    constructor
    · simp [initState]
    · intro k
      simp [initState, cacheGet]
  have h := cacheInv_engine env opts fuel
      (.deref d (initState env opts d)) hinit
  unfold derefRun derefSchemaAux
  rcases heng : engine env opts fuel (.deref d (initState env opts d))
    with ⟨ret, stf⟩
  rw [heng] at h
  dsimp only
  cases ret <;> try exact h.1
  all_goals cases herr : stf.error <;> exact h.1

/-- Witness for C8 on the two-references-to-one-file document, with
`removeIds` on: the run stores the file once (one guarded-store log
entry), even though `cacheWrites` records a second, in-place change of
the same entry (the `$id` deletion exhibited by the counterexample). -/
theorem C8_cache_write_once_witness :
    ((derefRun 20 (envWith fContentId) { removeIds := true }
        docTwoFileRefs).2.cacheStores.map Prod.fst).Nodup :=
  C8_cache_write_once 20 (envWith fContentId) { removeIds := true }
    docTwoFileRefs

end JsonDeref
